import Mathlib

/-!
Shallow embedding of `src/main.py` (Taiwan stock tracker, Tkinter application).

The mutable application state is modelled explicitly:
* `self.stocks` (a Python `dict` keyed by stock code, insertion ordered) is an
  association list `Dict := List (String × StockInfo)`;
* the network call in `fetch_stock` is a parameter of type `FetchOutcome`
  describing what `requests.get` + `response.json()` produced (a JSON payload,
  a timeout, a connection error, or some other exception);
* Python numeric parsing (`float(...)`, `int(...)`) is modelled over `ℚ`/`ℤ`
  by `pyFloat`/`pyInt` (exponent forms and underscore separators, which the
  provider never produces, are not modelled);
* the Tk timer (`root.after`) is modelled by a list of pending armed timers.
-/

namespace StockTracker

/-! ## Python string helpers (`str.strip`, `str.upper`, `str.isdigit`) -/

/-- ASCII whitespace recognised by `str.strip` (the subset that can occur in
this application's inputs). -/
def pyIsSpace (c : Char) : Bool :=
  c == ' ' || c == '\t' || c == '\n' || c == '\r'

/-- `str.strip()` : drop leading and trailing whitespace. -/
def pyStrip (cs : List Char) : List Char :=
  ((cs.dropWhile pyIsSpace).reverse.dropWhile pyIsSpace).reverse

/-- ASCII digit test, modelling `str.isdigit` on the provider's ASCII data. -/
def pyIsDigit (c : Char) : Bool := decide ('0' ≤ c ∧ c ≤ '9')

/-- ASCII uppercasing of one character, modelling `str.upper`. -/
def pyToUpper (c : Char) : Char :=
  if 'a' ≤ c ∧ c ≤ 'z' then Char.ofNat (c.toNat - 32) else c

/-- `str.upper()`. -/
def pyUpper (cs : List Char) : List Char := cs.map pyToUpper

/-! ## Python numeric parsing (`int`, `float`) -/

/-- Value of a digit string, most significant digit first. -/
def digitsToNat (cs : List Char) : ℕ :=
  cs.foldl (fun a c => a * 10 + (c.toNat - 48)) 0

/-- A nonempty all-digit string parses to its value; anything else fails. -/
def parseDigits (cs : List Char) : Option ℕ :=
  match cs with
  | [] => none
  | _ :: _ => if cs.all pyIsDigit then some (digitsToNat cs) else none

/-- Unsigned decimal literal accepted by Python `float`: digits with at most
one decimal point and at least one digit overall (`"1"`, `"1."`, `".5"`). -/
def parseDecimal (cs : List Char) : Option ℚ :=
  let ip := cs.takeWhile (fun c => c != '.')
  match cs.dropWhile (fun c => c != '.') with
  | [] => (parseDigits ip).map (fun n => (n : ℚ))
  | _ :: fp =>
    if ip.all pyIsDigit && fp.all pyIsDigit && (!ip.isEmpty || !fp.isEmpty) then
      some ((digitsToNat ip : ℚ) + (digitsToNat fp : ℚ) / (10 : ℚ) ^ fp.length)
    else none

/-- Python `float(s)`: strip whitespace, optional sign, decimal literal. -/
def pyFloat (s : String) : Option ℚ :=
  match pyStrip s.data with
  | [] => none
  | c :: rest =>
    if c = '-' then (parseDecimal rest).map (fun q => -q)
    else if c = '+' then parseDecimal rest
    else parseDecimal (c :: rest)

/-- Python `int(s)`: strip whitespace, optional sign, digits. -/
def pyInt (s : String) : Option ℤ :=
  match pyStrip s.data with
  | [] => none
  | c :: rest =>
    if c = '-' then (parseDigits rest).map (fun n => -(n : ℤ))
    else if c = '+' then (parseDigits rest).map (fun n => (n : ℤ))
    else (parseDigits (c :: rest)).map (fun n => (n : ℤ))

/-- `int(latest[1].replace(',', ''))` : remove every comma, then parse. -/
def volumeField (s : String) : Option ℤ :=
  pyInt (String.mk (s.data.filter (fun c => c != ',')))

/-! ## The quote record and the tracked-symbol dictionary -/

/-- One entry of `self.stocks`: the dict literal built in `fetch_stock`. -/
structure StockInfo where
  code : String
  name : String
  price : ℚ
  change : ℚ
  volume : ℤ
  open_ : ℚ
  high : ℚ
  low : ℚ
  timestamp : String
deriving DecidableEq

/-- `self.stocks`: a Python dict, i.e. an insertion-ordered association list
with unique keys. -/
abbrev Dict := List (String × StockInfo)

/-- Keys of the dict, in insertion order (`self.stocks.keys()`). -/
def dictKeys (m : Dict) : List String := m.map Prod.fst

/-- Dictionary lookup (`self.stocks[code]` as a total function into `Option`). -/
def dictGet : Dict → String → Option StockInfo
  | [], _ => none
  | (k, v) :: t, k' => if k = k' then some v else dictGet t k'

/-- `code in self.stocks`. -/
def dictContains (m : Dict) (k : String) : Bool := (dictGet m k).isSome

/-- `self.stocks[code] = info`: replace in place if the key exists, else
append (Python dicts preserve insertion order). -/
def dictSet : Dict → String → StockInfo → Dict
  | [], k, v => [(k, v)]
  | (k1, v1) :: t, k, v =>
    if k1 = k then (k, v) :: t else (k1, v1) :: dictSet t k v

/-- `del self.stocks[code]` (guarded by `if code in self.stocks`). -/
def dictRemove : Dict → String → Dict
  | [], _ => []
  | (k1, v1) :: t, k => if k1 = k then t else (k1, v1) :: dictRemove t k

/-! ## `fetch_stock`: the network call and response handling -/

/-- What the network interaction in `fetch_stock` produced. `response` carries
the JSON payload's optional `name` field and its `data` field (a list of daily
rows, each a list of strings); an absent or null `data` field behaves exactly
like an empty list (`data.get('data') and len(data['data']) > 0`). -/
inductive FetchOutcome where
  | response (name : Option String) (data : List (List String))
  | timeout
  | connectionError
  | otherError (msg : String)
deriving DecidableEq

/-- Which message box `fetch_stock` shows. -/
inductive Notice where
  | updated
  | notFound
  | timeoutMsg
  | connectionMsg
  | unknownMsg
deriving DecidableEq

/-- Extraction of the quote record from the latest row, in Python evaluation
order: `float(latest[6])`, `float(latest[7])`, `int(latest[1].replace(...))`,
`float(latest[3])`, `float(latest[4])`, `float(latest[5])`. A missing index
(`IndexError`) or parse failure (`ValueError`) aborts the record; only the
volume field has its commas removed first. -/
def extractQuote (code : String) (name : Option String) (latest : List String)
    (now : String) : Option StockInfo :=
  (latest[6]?.bind pyFloat).bind fun price =>
  (latest[7]?.bind pyFloat).bind fun change =>
  (latest[1]?.bind volumeField).bind fun volume =>
  (latest[3]?.bind pyFloat).bind fun openV =>
  (latest[4]?.bind pyFloat).bind fun high =>
  (latest[5]?.bind pyFloat).bind fun low =>
  some { code := code, name := name.getD code, price := price, change := change,
         volume := volume, open_ := openV, high := high, low := low,
         timestamp := now }

/-- State effect of one completed `fetch_stock(code)` call, given the network
outcome. On success the record replaces the entry for `code`; on every failure
path (`else` branch, `except` clauses) only a message box is shown and
`self.stocks` is untouched. -/
def fetch_stock (stocks : Dict) (code : String) (out : FetchOutcome)
    (now : String) : Dict × Notice :=
  match out with
  | .response name data =>
    match data.getLast? with
    | some latest =>
      match extractQuote code name latest now with
      | some info => (dictSet stocks code info, .updated)
      | none => (stocks, .unknownMsg)
    | none => (stocks, .notFound)
  | .timeout => (stocks, .timeoutMsg)
  | .connectionError => (stocks, .connectionMsg)
  | .otherError _ => (stocks, .unknownMsg)

/-- The record a fetch produces, if it succeeds. -/
def fetchResultInfo (code : String) (out : FetchOutcome) (now : String) :
    Option StockInfo :=
  match out with
  | .response name data =>
    (data.getLast?).bind fun latest => extractQuote code name latest now
  | _ => none

/-- `refresh_all_stocks`: one fetch per currently tracked code. Each fetch
touches only its own key, so the concurrent completions are modelled as a
fold over the key list with a per-code outcome. -/
def refresh_all_stocks (stocks : Dict) (outcome : String → FetchOutcome)
    (now : String) : Dict :=
  (dictKeys stocks).foldl (fun st c => (fetch_stock st c (outcome c) now).1) stocks

/-! ## `add_stock`: the interactive add path -/

/-- Which branch `add_stock` takes. -/
inductive AddOutcome where
  | emptyWarn
  | invalidWarn
  | duplicateWarn
  | fetchSpawned
deriving DecidableEq

/-- `self.stock_input.get().strip().upper()`. -/
def normalizeCode (input : String) : String :=
  String.mk (pyUpper (pyStrip input.data))

/-- `add_stock`: read the entry text, `strip().upper()`, validate (nonempty,
4 digits, not already tracked), then spawn a fetch thread. The returned dict
is the (unchanged) `self.stocks`; the `Option String` is the code a fetch
thread was spawned for, if any. -/
def add_stock (stocks : Dict) (input : String) :
    Dict × AddOutcome × Option String :=
  if (normalizeCode input).data.isEmpty then (stocks, .emptyWarn, none)
  else if !((normalizeCode input).data.all pyIsDigit &&
      (normalizeCode input).data.length == 4) then
    (stocks, .invalidWarn, none)
  else if dictContains stocks (normalizeCode input) then
    (stocks, .duplicateWarn, none)
  else (stocks, .fetchSpawned, some (normalizeCode input))

/-! ## State transitions of the tracked-symbol dictionary -/

/-- The UI/thread events that can touch `self.stocks`. An add request mutates
nothing itself (the spawned thread later yields a `fetchComplete` event);
`deleteSelected` performs `del` per selected code; `clearAll` empties the
dict. -/
inductive Event where
  | addRequest (input : String)
  | fetchComplete (code : String) (out : FetchOutcome) (now : String)
  | deleteSelected (codes : List String)
  | clearAll
deriving DecidableEq

/-- Effect of one event on `self.stocks`. -/
def step (st : Dict) : Event → Dict
  | .addRequest input => (add_stock st input).1
  | .fetchComplete c out now => (fetch_stock st c out now).1
  | .deleteSelected cs => cs.foldl (fun m c => dictRemove m c) st
  | .clearAll => []

/-! ## Scheduler: auto-refresh checkbox, interval spinbox, `root.after` -/

/-- The scheduler-related fields of the application plus the set of pending
`root.after` timers (each armed with the delay it was registered with).
`auto_refresh_active` is written but never read by the source; it is kept for
faithfulness. -/
structure SchedState where
  auto_refresh_var : Bool
  auto_refresh_active : Bool
  refresh_interval : ℤ
  pendingTimers : List ℤ
deriving DecidableEq

/-- `__init__`: auto refresh off, 30000 ms interval, no timer armed. -/
def initState : SchedState :=
  { auto_refresh_var := false, auto_refresh_active := false,
    refresh_interval := 30000, pendingTimers := [] }

/-- `schedule_refresh`: when the checkbox is on, trigger a refresh (not
tracked here) and arm a new `root.after` timer at the current interval. It
never cancels an existing timer. -/
def schedule_refresh (s : SchedState) : SchedState :=
  if s.auto_refresh_var then
    { s with pendingTimers := s.pendingTimers ++ [s.refresh_interval] }
  else s

/-- `toggle_auto_refresh`, after Tk has set the checkbox variable to
`checked`. -/
def toggle_auto_refresh (s : SchedState) (checked : Bool) : SchedState :=
  let s1 := { s with auto_refresh_var := checked }
  if checked then schedule_refresh s1
  else { s1 with auto_refresh_active := false }

/-- `update_refresh_interval`: `int(self.interval_var.get()) * 1000`; on a
`ValueError` the handler `pass`es; when auto refresh is on it re-runs
`schedule_refresh` (arming an additional timer). -/
def update_refresh_interval (s : SchedState) (txt : String) : SchedState :=
  match pyInt txt with
  | some v =>
    let s1 := { s with refresh_interval := v * 1000 }
    if s1.auto_refresh_var then schedule_refresh s1 else s1
  | none => s

/-- A pending `root.after` timer fires: Tk removes it and invokes
`schedule_refresh`. -/
def timer_fire (s : SchedState) : SchedState :=
  match s.pendingTimers with
  | [] => s
  | _ :: rest => schedule_refresh { s with pendingTimers := rest }

/-- The spinbox widget's declared arrow range, in seconds (`from_=5`,
`to=300`); `update_refresh_interval` itself never consults these bounds. -/
def interval_spinbox_from : ℕ := 5

/-- See `interval_spinbox_from`. -/
def interval_spinbox_to : ℕ := 300

/-! ## Persistence: `save_stocks` / `load_stocks` (JSON code list) -/

/-- `json.dump` of one string: quote it (codes contain no escapes). -/
def jsonQuote (s : String) : List Char := '"' :: s.data ++ ['"']

/-- `json.dump` separator and items after the first (default `", "`). -/
def jsonDumpTail : List String → List Char
  | [] => []
  | x :: t => ',' :: ' ' :: jsonQuote x ++ jsonDumpTail t

/-- `json.dump(list_of_strings, f)`: the exact text written. -/
def jsonDumpStrList : List String → List Char
  | [] => ['[', ']']
  | x :: t => '[' :: jsonQuote x ++ jsonDumpTail t ++ [']']

/-- JSON whitespace skipping. -/
def jsonSkipWs (cs : List Char) : List Char := cs.dropWhile pyIsSpace

/-- Body of a JSON string literal after the opening quote. Escape sequences
are not modelled (the persisted codes never contain `"` or `\`), so a body
with a backslash is rejected. -/
def parseJStrBody (rest : List Char) : Option (String × List Char) :=
  if (rest.takeWhile (fun ch => ch != '"')).all (fun ch => ch != '\\') then
    match rest.dropWhile (fun ch => ch != '"') with
    | [] => none
    | _ :: r => some (String.mk (rest.takeWhile (fun ch => ch != '"')), r)
  else none

/-- Parse one JSON string literal. -/
def parseJStr : List Char → Option (String × List Char)
  | [] => none
  | c :: rest => if c = '"' then parseJStrBody rest else none

/-- Parse the rest of a JSON string array after at least one item. -/
def parseJTail : ℕ → List Char → Option (List String × List Char)
  | 0, _ => none
  | fuel + 1, cs =>
    match jsonSkipWs cs with
    | [] => none
    | c :: r =>
      if c = ']' then some ([], r)
      else if c = ',' then
        match parseJStr (jsonSkipWs r) with
        | some (s, r2) =>
          match parseJTail fuel r2 with
          | some (xs, r3) => some (s :: xs, r3)
          | none => none
        | none => none
      else none

/-- `json.load` restricted to flat arrays of strings — the only shape
`save_stocks` ever writes. Any other payload is a parse failure, which
`load_stocks` treats like the `except` branch. -/
def jsonLoadStrList (cs : List Char) : Option (List String) :=
  match jsonSkipWs cs with
  | [] => none
  | c0 :: r =>
    if c0 = '[' then
      match jsonSkipWs r with
      | [] => none
      | c1 :: r2 =>
        if c1 = ']' then
          if (jsonSkipWs r2).isEmpty then some [] else none
        else
          match parseJStr (c1 :: r2) with
          | some (s, r3) =>
            match parseJTail (r3.length + 1) r3 with
            | some (xs, r4) =>
              if (jsonSkipWs r4).isEmpty then some (s :: xs) else none
            | none => none
          | none => none
    else none

/-- `save_stocks`: the file text written (`json.dump(list(self.stocks.keys()))`). -/
def save_stocks (stocks : Dict) : List Char := jsonDumpStrList (dictKeys stocks)

/-- `load_stocks`: given the config file content (`none` when the file does
not exist), the ordered list of codes a fetch thread is spawned for. A parse
failure is the logged `except` branch: no fetches. No validation and no
duplicate check is applied to the loaded codes. -/
def load_stocks (file : Option (List Char)) : List String :=
  match file with
  | none => []
  | some cs =>
    match jsonLoadStrList cs with
    | some codes => codes
    | none => []

/-! ## CSV export (`export_data`) -/

/-- Decimal digits of `n`, least significant first. -/
def natDigitsRev (n : ℕ) : List Char :=
  if n < 10 then [Char.ofNat (48 + n)]
  else Char.ofNat (48 + n % 10) :: natDigitsRev (n / 10)
termination_by n
decreasing_by exact Nat.div_lt_self (by omega) (by omega)

/-- Decimal representation of `n`, most significant digit first. -/
def natStr (n : ℕ) : List Char := (natDigitsRev n).reverse

/-- Two-digit zero-padded representation of `n < 100`. -/
def pad2 (n : ℕ) : List Char := if n < 10 then '0' :: natStr n else natStr n

/-- Round `q * 100` to the nearest integer, ties to even — the rounding of
Python's `format(x, '.2f')`. -/
def roundHalfEven2 (q : ℚ) : ℕ :=
  (let m := q * 100
   let n := ⌊m⌋
   let r := m - (n : ℚ)
   if 1 / 2 < r then n + 1
   else if r < 1 / 2 then n
   else if n % 2 = 0 then n else n + 1).toNat

/-- `f"{x:.2f}"`. -/
def fmtFixed2 (q : ℚ) : List Char :=
  (if q < 0 then ['-'] else []) ++
    (natStr (roundHalfEven2 |q| / 100) ++ '.' :: pad2 (roundHalfEven2 |q| % 100))

/-- `f"{x:+.2f}"`. -/
def fmtSigned2 (q : ℚ) : List Char :=
  (if q < 0 then ['-'] else ['+']) ++
    (natStr (roundHalfEven2 |q| / 100) ++ '.' :: pad2 (roundHalfEven2 |q| % 100))

/-- Insert a comma after every third character; the input is the digit list
least significant first. -/
def group3 : List Char → List Char
  | a :: b :: c :: d :: rest => a :: b :: c :: ',' :: group3 (d :: rest)
  | l => l

/-- `f"{n:,}"` for a natural number: thousands separators. -/
def fmtGroupedNat (n : ℕ) : List Char := (group3 (natStr n).reverse).reverse

/-- `f"{v:,}"` for an integer. -/
def fmtGrouped (v : ℤ) : List Char :=
  (if v < 0 then ['-'] else []) ++ fmtGroupedNat v.natAbs

/-- The fixed 9-column header row written by `export_data`. -/
def csvHeader : List Char := ("代碼,名稱,現價,漲跌,開盤,最高,最低,成交量,更新時間").data

/-- One data row of the CSV export. -/
def exportRow (code : String) (s : StockInfo) : List Char :=
  code.data ++ ',' :: s.name.data ++ ',' :: fmtFixed2 s.price ++
    ',' :: fmtSigned2 s.change ++ ',' :: fmtFixed2 s.open_ ++
    ',' :: fmtFixed2 s.high ++ ',' :: fmtFixed2 s.low ++
    ',' :: fmtGrouped s.volume ++ ',' :: s.timestamp.data ++ ['\n']

/-- `export_data`: with an empty store only a warning is shown (`none`);
otherwise the file text is the header row followed by one row per tracked
symbol in dict iteration order. -/
def export_data (stocks : Dict) : Option (List Char) :=
  if stocks.isEmpty then none
  else some (csvHeader ++ '\n' :: (stocks.map (fun p => exportRow p.1 p.2)).flatten)

/-! ## Concrete data used by the witnesses -/

/-- Concrete records used by the witnesses. -/
def infoA : StockInfo :=
  { code := "2330", name := "TSMC", price := 580, change := 5, volume := 1000,
    open_ := 575, high := 581, low := 574, timestamp := "t1" }

/-- See `infoA`. -/
def infoB : StockInfo :=
  { code := "0050", name := "ETF50", price := 140, change := -1, volume := 500,
    open_ := 141, high := 142, low := 139, timestamp := "t1" }

/-- A concrete two-symbol store for the witnesses. -/
def stocksW : Dict := [("2330", infoA), ("0050", infoB)]

/-- A per-code outcome where the fetch for `"2330"` succeeds and the fetch
for `"0050"` times out. -/
def outcomeW (c : String) : FetchOutcome :=
  if c = "2330" then
    .response (some "TSMC")
      [["d", "1,000", "x", "575.00", "581.00", "574.00", "580.00", "+5.00"]]
  else .timeout

/-- A successful outcome used by the C6 and C10 witnesses. -/
def outSuccess : FetchOutcome :=
  .response none
    [["20260101", "1,000", "x", "99.0", "101.0", "98.0", "100.0", "+1.0"]]

/-- The record `outSuccess` produces for the untracked, invalid code `"IBM"`
(the parse succeeds: `(by decide)` checks the outcome yields a record). -/
def infoIBM : StockInfo := (fetchResultInfo "IBM" outSuccess "t").get (by decide)

/-- A string whose characters contain no quote and no backslash. -/
def jsonSafe (s : String) : Prop :=
  ∀ c ∈ s.data, (c != '"' && c != '\\') = true

/-! ## Dictionary lemmas -/

@[simp] theorem dictKeys_nil : dictKeys [] = [] := rfl

@[simp] theorem dictKeys_cons (k : String) (v : StockInfo) (t : Dict) :
    dictKeys ((k, v) :: t) = k :: dictKeys t := rfl

theorem dictKeys_dictSet_of_mem {m : Dict} {k : String} (v : StockInfo)
    (h : k ∈ dictKeys m) : dictKeys (dictSet m k v) = dictKeys m := by
  induction m with
  | nil => cases h
  | cons hd t ih =>
    obtain ⟨k1, v1⟩ := hd
    by_cases hk : k1 = k
    · simp [dictSet, hk]
    · rcases (by simpa using h : k = k1 ∨ k ∈ dictKeys t) with h1 | h1
      · exact absurd h1.symm hk
      · simp [dictSet, hk, ih h1]

theorem mem_dictKeys_dictSet {m : Dict} {k c : String} (v : StockInfo) :
    c ∈ dictKeys (dictSet m k v) ↔ c ∈ dictKeys m ∨ c = k := by
  induction m with
  | nil => simp [dictSet]
  | cons hd t ih =>
    obtain ⟨k1, v1⟩ := hd
    by_cases hk : k1 = k
    · subst hk
      simp [dictSet]
      tauto
    · simp only [dictSet, if_neg hk, dictKeys_cons, List.mem_cons, ih]
      tauto

theorem dictGet_dictSet_self (m : Dict) (k : String) (v : StockInfo) :
    dictGet (dictSet m k v) k = some v := by
  induction m with
  | nil => simp [dictSet, dictGet]
  | cons hd t ih =>
    obtain ⟨k1, v1⟩ := hd
    by_cases hk : k1 = k
    · simp [dictSet, dictGet, hk]
    · simp [dictSet, dictGet, hk, ih]

theorem dictGet_dictSet_ne {k c : String} (m : Dict) (v : StockInfo)
    (h : c ≠ k) : dictGet (dictSet m k v) c = dictGet m c := by
  induction m with
  | nil => simp [dictSet, dictGet, Ne.symm h]
  | cons hd t ih =>
    obtain ⟨k1, v1⟩ := hd
    by_cases hk : k1 = k
    · subst hk
      simp [dictSet, dictGet, Ne.symm h]
    · simp [dictSet, dictGet, hk, ih]

theorem dictGet_isSome_of_mem {m : Dict} {k : String} (h : k ∈ dictKeys m) :
    (dictGet m k).isSome = true := by
  induction m with
  | nil => cases h
  | cons hd t ih =>
    obtain ⟨k1, v1⟩ := hd
    by_cases hk : k1 = k
    · simp [dictGet, hk]
    · rcases (by simpa using h : k = k1 ∨ k ∈ dictKeys t) with h1 | h1
      · exact absurd h1.symm hk
      · simp [dictGet, hk, ih h1]

theorem mem_dictKeys_dictRemove {m : Dict} {k c : String}
    (h : c ∈ dictKeys (dictRemove m k)) : c ∈ dictKeys m := by
  induction m with
  | nil => simp [dictRemove] at h
  | cons hd t ih =>
    obtain ⟨k1, v1⟩ := hd
    by_cases hk : k1 = k
    · simp only [dictRemove, if_pos hk] at h
      simp only [dictKeys_cons, List.mem_cons]
      tauto
    · simp only [dictRemove, if_neg hk, dictKeys_cons, List.mem_cons] at h ⊢
      rcases h with h1 | h1
      · tauto
      · exact Or.inr (ih h1)

/-! ## Fetch lemmas -/

theorem fetch_stock_fst (stocks : Dict) (code : String) (out : FetchOutcome)
    (now : String) :
    (fetch_stock stocks code out now).1 =
      match fetchResultInfo code out now with
      | some info => dictSet stocks code info
      | none => stocks := by
  cases out with
  | response name data =>
    cases hlast : data.getLast? with
    | none => simp [fetch_stock, fetchResultInfo, hlast]
    | some latest =>
      cases hq : extractQuote code name latest now with
      | none => simp [fetch_stock, fetchResultInfo, hlast, hq]
      | some info => simp [fetch_stock, fetchResultInfo, hlast, hq]
  | timeout => simp [fetch_stock, fetchResultInfo]
  | connectionError => simp [fetch_stock, fetchResultInfo]
  | otherError m => simp [fetch_stock, fetchResultInfo]

theorem fetch_stock_of_failure {code : String} {out : FetchOutcome}
    {now : String} (stocks : Dict)
    (h : fetchResultInfo code out now = none) :
    (fetch_stock stocks code out now).1 = stocks := by
  rw [fetch_stock_fst, h]

theorem fetch_stock_of_success {code : String} {out : FetchOutcome}
    {now : String} {info : StockInfo} (stocks : Dict)
    (h : fetchResultInfo code out now = some info) :
    (fetch_stock stocks code out now).1 = dictSet stocks code info := by
  rw [fetch_stock_fst, h]

/-- Invariants of the `refresh_all_stocks` fold: for any sublist `L` of the
keys of the accumulated dict, the fold preserves the key list, leaves keys
outside `L` untouched, and for each key of `L` either keeps the old record
(failed fetch) or stores exactly the fetched record (successful fetch). -/
theorem refresh_fold (outcome : String → FetchOutcome) (now : String) :
    ∀ (L : List String) (st : Dict), (∀ c ∈ L, c ∈ dictKeys st) → L.Nodup →
      dictKeys (L.foldl (fun m c => (fetch_stock m c (outcome c) now).1) st) =
          dictKeys st
      ∧ (∀ c, c ∉ L →
          dictGet (L.foldl (fun m c => (fetch_stock m c (outcome c) now).1) st) c =
            dictGet st c)
      ∧ (∀ c ∈ L,
          (fetchResultInfo c (outcome c) now = none →
            dictGet (L.foldl (fun m c => (fetch_stock m c (outcome c) now).1) st) c =
              dictGet st c)
          ∧ ∀ info, fetchResultInfo c (outcome c) now = some info →
            dictGet (L.foldl (fun m c => (fetch_stock m c (outcome c) now).1) st) c =
              some info) := by
  intro L
  induction L with
  | nil => intro st _ _; simp
  | cons c t ih =>
    intro st hsub hnd
    have hmem : c ∈ dictKeys st := hsub c (by simp)
    have hndt : t.Nodup := (List.nodup_cons.mp hnd).2
    have hct : c ∉ t := (List.nodup_cons.mp hnd).1
    simp only [List.foldl_cons]
    cases hres : fetchResultInfo c (outcome c) now with
    | none =>
      rw [fetch_stock_of_failure st hres]
      obtain ⟨hkeys, hout, hin⟩ := ih st (fun x hx => hsub x (by simp [hx])) hndt
      refine ⟨hkeys, ?_, ?_⟩
      · intro x hx
        exact hout x (fun hxt => hx (by simp [hxt]))
      · intro x hx
        rcases List.mem_cons.mp hx with rfl | hxt
        · refine ⟨fun _ => hout x hct, ?_⟩
          intro info hinfo
          rw [hres] at hinfo
          cases hinfo
        · exact hin x hxt
    | some info =>
      rw [fetch_stock_of_success st hres]
      have hkeq : dictKeys (dictSet st c info) = dictKeys st :=
        dictKeys_dictSet_of_mem info hmem
      obtain ⟨hkeys, hout, hin⟩ :=
        ih (dictSet st c info) (fun x hx => by rw [hkeq]; exact hsub x (by simp [hx])) hndt
      refine ⟨hkeys.trans hkeq, ?_, ?_⟩
      · intro x hx
        have hxc : x ≠ c := fun h => hx (by simp [h])
        have hxt : x ∉ t := fun h => hx (by simp [h])
        rw [hout x hxt, dictGet_dictSet_ne st info hxc]
      · intro x hx
        rcases List.mem_cons.mp hx with rfl | hxt
        · constructor
          · intro hnone
            rw [hres] at hnone
            cases hnone
          · intro info1 hinfo
            rw [hres] at hinfo
            cases hinfo
            rw [hout x hct, dictGet_dictSet_self]
        · have hxc : x ≠ c := fun h => hct (h ▸ hxt)
          obtain ⟨hfail, hsucc⟩ := hin x hxt
          constructor
          · intro hnone
            rw [hfail hnone, dictGet_dictSet_ne st info hxc]
          · exact hsucc

/-- C1: a failed fetch (no data, malformed row, timeout, connection error, or
any other exception) leaves the tracked-symbol mapping entirely unchanged —
in particular an already tracked code keeps its record and an untracked code
gains none. A batch refresh over the tracked keys preserves the key list and
the entry count, keeps the old record exactly at every failing code, and
stores exactly the fetched record at every succeeding code. -/
theorem c1_failed_fetch_preserves_store :
    (∀ (stocks : Dict) (code : String) (out : FetchOutcome) (now : String),
      fetchResultInfo code out now = none →
        (fetch_stock stocks code out now).1 = stocks)
    ∧ ∀ (stocks : Dict) (outcome : String → FetchOutcome) (now : String),
        (dictKeys stocks).Nodup →
        dictKeys (refresh_all_stocks stocks outcome now) = dictKeys stocks
        ∧ (refresh_all_stocks stocks outcome now).length = stocks.length
        ∧ ∀ c ∈ dictKeys stocks,
            (fetchResultInfo c (outcome c) now = none →
              dictGet (refresh_all_stocks stocks outcome now) c = dictGet stocks c)
            ∧ ∀ info, fetchResultInfo c (outcome c) now = some info →
              dictGet (refresh_all_stocks stocks outcome now) c = some info := by
  constructor
  · intro stocks code out now h
    exact fetch_stock_of_failure stocks h
  · intro stocks outcome now hnd
    obtain ⟨hkeys, _, hin⟩ :=
      refresh_fold outcome now (dictKeys stocks) stocks (fun c hc => hc) hnd
    have hkeys2 : dictKeys (refresh_all_stocks stocks outcome now) = dictKeys stocks :=
      hkeys
    refine ⟨hkeys2, ?_, hin⟩
    have h1 : (refresh_all_stocks stocks outcome now).length =
        (dictKeys (refresh_all_stocks stocks outcome now)).length := by
      simp [dictKeys]
    rw [h1, hkeys2]
    simp [dictKeys]

/-- C1 witness: on the concrete store, the failing code keeps its record. -/
theorem c1_witness :
    (dictKeys stocksW).Nodup ∧
      dictGet (refresh_all_stocks stocksW outcomeW "t2") "0050" =
        dictGet stocksW "0050" :=
  ⟨by decide,
   ((c1_failed_fetch_preserves_store.2 stocksW outcomeW "t2" (by decide)).2.2
     "0050" (by decide)).1 (by decide)⟩

/-! ## String identity lemmas for all-digit codes -/

theorem dropWhile_eq_self_of_forall {p : Char → Bool} {l : List Char}
    (h : ∀ c ∈ l, p c = false) : l.dropWhile p = l := by
  cases l with
  | nil => rfl
  | cons a t => simp [List.dropWhile_cons, h a (by simp)]

theorem pyIsSpace_of_pyIsDigit {c : Char} (h : pyIsDigit c = true) :
    pyIsSpace c = false := by
  have h1 : '0' ≤ c ∧ c ≤ '9' := by simpa [pyIsDigit] using h
  cases hsp : pyIsSpace c
  · rfl
  · exfalso
    have h3 : c = ' ' ∨ c = '\t' ∨ c = '\n' ∨ c = '\r' := by
      have h2 := hsp
      simp only [pyIsSpace, Bool.or_eq_true, beq_iff_eq] at h2
      tauto
    rcases h3 with rfl | rfl | rfl | rfl <;> exact absurd h1.1 (by decide)

theorem pyStrip_of_digits {cs : List Char}
    (h : ∀ c ∈ cs, pyIsDigit c = true) : pyStrip cs = cs := by
  unfold pyStrip
  rw [dropWhile_eq_self_of_forall (fun c hc => pyIsSpace_of_pyIsDigit (h c hc))]
  rw [dropWhile_eq_self_of_forall
    (fun c hc => pyIsSpace_of_pyIsDigit (h c (List.mem_reverse.mp hc)))]
  exact List.reverse_reverse cs

theorem pyToUpper_of_digit {c : Char} (h : pyIsDigit c = true) :
    pyToUpper c = c := by
  have h1 : '0' ≤ c ∧ c ≤ '9' := by simpa [pyIsDigit] using h
  unfold pyToUpper
  rw [if_neg]
  intro hlow
  exact absurd (le_trans hlow.1 h1.2) (by decide)

theorem pyUpper_of_digits {cs : List Char}
    (h : ∀ c ∈ cs, pyIsDigit c = true) : pyUpper cs = cs := by
  unfold pyUpper
  calc cs.map pyToUpper = cs.map id :=
        List.map_congr_left (fun c hc => pyToUpper_of_digit (h c hc))
    _ = cs := List.map_id cs

theorem string_mk_data (s : String) : String.mk s.data = s := rfl

/-- C5: an add request for a (well-formed, i.e. 4-digit, as the data model
defines codes) code that is already tracked takes the duplicate-warning
branch: the store is returned unchanged and no fetch thread is spawned. -/
theorem c5_duplicate_add_rejected_without_fetch :
    ∀ (stocks : Dict) (code : String),
      code.data.all pyIsDigit = true → code.data.length = 4 →
      code ∈ dictKeys stocks →
      add_stock stocks code = (stocks, AddOutcome.duplicateWarn, none) := by
  intro stocks code hdig hlen hmem
  have hdig' : ∀ c ∈ code.data, pyIsDigit c = true := List.all_eq_true.mp hdig
  have hid : normalizeCode code = code := by
    unfold normalizeCode
    rw [pyStrip_of_digits hdig', pyUpper_of_digits hdig', string_mk_data]
  have hne : code.data.isEmpty = false := by
    cases hd : code.data with
    | nil => rw [hd] at hlen; cases hlen
    | cons a t => rfl
  unfold add_stock
  rw [hid]
  rw [if_neg (by rw [hne]; exact Bool.false_ne_true)]
  rw [if_neg (by rw [hdig, hlen]; decide)]
  rw [if_pos (by simpa [dictContains] using dictGet_isSome_of_mem hmem)]

/-- C5 witness: adding `"2330"` to the concrete store that already tracks it
warns about the duplicate and spawns no fetch. -/
theorem c5_witness :
    ("2330" : String).data.all pyIsDigit = true ∧
      ("2330" : String).data.length = 4 ∧ "2330" ∈ dictKeys stocksW ∧
      add_stock stocksW "2330" = (stocksW, AddOutcome.duplicateWarn, none) :=
  ⟨by decide, by decide, by decide,
   c5_duplicate_add_rejected_without_fetch stocksW "2330" (by decide) (by decide)
     (by decide)⟩

/-! ## C6: codes enter the store only through a successful fetch -/

theorem add_stock_fst (st : Dict) (input : String) :
    (add_stock st input).1 = st := by
  unfold add_stock
  split
  · rfl
  · split
    · rfl
    · split
      · rfl
      · rfl

theorem foldl_dictRemove_keys {c : String} :
    ∀ (cs : List String) (st : Dict),
      c ∈ dictKeys (cs.foldl (fun m k => dictRemove m k) st) → c ∈ dictKeys st := by
  intro cs
  induction cs with
  | nil => intro st h; simpa using h
  | cons k t ih =>
    intro st h
    simp only [List.foldl_cons] at h
    exact mem_dictKeys_dictRemove (ih (dictRemove st k) h)

/-- C6: an add request never mutates the store, and the only event that can
make a previously absent code appear in the store is a *successful* fetch
completion for that code — whose full record is then exactly the stored
entry. Hence every stored code carries a complete fetched record. -/
theorem c6_code_enters_only_on_successful_fetch :
    (∀ (st : Dict) (input : String), step st (Event.addRequest input) = st)
    ∧ ∀ (st : Dict) (e : Event) (c : String),
        c ∉ dictKeys st → c ∈ dictKeys (step st e) →
        ∃ out now info, e = Event.fetchComplete c out now ∧
          fetchResultInfo c out now = some info ∧
          dictGet (step st e) c = some info := by
  constructor
  · intro st input
    exact add_stock_fst st input
  · intro st e c hnot hmem
    cases e with
    | addRequest input =>
      rw [show step st (Event.addRequest input) = st from add_stock_fst st input]
        at hmem
      exact absurd hmem hnot
    | fetchComplete c1 out now =>
      simp only [step] at hmem ⊢
      rw [fetch_stock_fst] at hmem ⊢
      cases hres : fetchResultInfo c1 out now with
      | none =>
        rw [hres] at hmem
        exact absurd hmem hnot
      | some info =>
        rw [hres] at hmem
        have hmem2 : c ∈ dictKeys (dictSet st c1 info) := hmem
        rcases (mem_dictKeys_dictSet info).mp hmem2 with h1 | rfl
        · exact absurd h1 hnot
        · refine ⟨out, now, info, rfl, hres, ?_⟩
          show dictGet (dictSet st c info) c = some info
          exact dictGet_dictSet_self st c info
    | deleteSelected cs =>
      simp only [step] at hmem
      exact absurd (foldl_dictRemove_keys cs st hmem) hnot
    | clearAll =>
      simp only [step, dictKeys_nil] at hmem
      cases hmem

/-- C6 witness: starting from the empty store, a successful fetch completion
for `"2330"` is what brings the code into the store, with its full record. -/
theorem c6_witness :
    "2330" ∉ dictKeys ([] : Dict) ∧
      "2330" ∈ dictKeys (step [] (Event.fetchComplete "2330" outSuccess "t")) ∧
      ∃ out now info, Event.fetchComplete "2330" outSuccess "t" =
          Event.fetchComplete "2330" out now ∧
        fetchResultInfo "2330" out now = some info ∧
        dictGet (step [] (Event.fetchComplete "2330" outSuccess "t")) "2330" =
          some info :=
  ⟨by decide, by decide,
   c6_code_enters_only_on_successful_fetch.2 []
     (Event.fetchComplete "2330" outSuccess "t") "2330" (by decide) (by decide)⟩

/-! ## C3: changing the interval while auto-refresh is on stacks timers -/

/-- C3 counterexample: enable auto refresh (arming a 30000 ms timer), then
change the interval to 10 s while enabled. The old timer is still armed next
to the new one — two pending timers, refuting "the previous pending timer is
cancelled" and "at most one recurring refresh timer is armed". -/
theorem c3_counterexample_interval_change_stacks_timers :
    (update_refresh_interval (toggle_auto_refresh initState true) "10").pendingTimers
        = [30000, 10000]
    ∧ ¬((update_refresh_interval (toggle_auto_refresh initState true)
          "10").pendingTimers.length ≤ 1) := by
  decide

/-- C3 amended: while auto-refresh is enabled, changing the interval to a
parseable value sets the stored interval to `v * 1000` and arms one
*additional* timer at the new interval; the previously pending timers are
never cancelled, so the pending-timer count grows by one (timers stack). -/
theorem c3_interval_change_appends_timer :
    ∀ (s : SchedState) (txt : String) (v : ℤ),
      s.auto_refresh_var = true → pyInt txt = some v →
      (update_refresh_interval s txt).pendingTimers =
          s.pendingTimers ++ [v * 1000]
      ∧ (update_refresh_interval s txt).refresh_interval = v * 1000 := by
  intro s txt v hvar hint
  unfold update_refresh_interval
  rw [hint]
  simp [schedule_refresh, hvar]

/-- C3 witness: the amended statement at the concrete enabled state. -/
theorem c3_witness :
    (toggle_auto_refresh initState true).auto_refresh_var = true ∧
      pyInt "10" = some 10 ∧
      (update_refresh_interval (toggle_auto_refresh initState true)
          "10").pendingTimers =
        (toggle_auto_refresh initState true).pendingTimers ++ [10 * 1000] :=
  ⟨by decide, by decide,
   (c3_interval_change_appends_timer (toggle_auto_refresh initState true) "10" 10
     (by decide) (by decide)).1⟩

/-! ## C4: the interval is accepted as-is, with no clamping or range check -/

/-- C4 counterexample: the set-interval operation with text `"1"` stores an
effective interval of 1000 ms — outside `[5000, 300000]` — and, when auto
refresh is enabled, arms a timer at exactly that out-of-range interval.
Nothing is clamped or rejected. -/
theorem c4_counterexample_out_of_range_accepted :
    (update_refresh_interval initState "1").refresh_interval = 1000
    ∧ ¬(5000 ≤ (update_refresh_interval initState "1").refresh_interval)
    ∧ (update_refresh_interval (toggle_auto_refresh initState true)
          "1").pendingTimers = [30000, 1000] := by
  decide

/-- C4 amended: `update_refresh_interval` parses the spinbox text with `int`
and stores `v * 1000` unconditionally — any integer value, however far
outside `[5000, 300000]`, is accepted as-is; only unparseable text is
rejected (state unchanged, the `ValueError` branch). The spinbox widget's
arrow range (`interval_spinbox_from = 5`, `interval_spinbox_to = 300`) is
not consulted by the handler. -/
theorem c4_interval_set_without_clamping :
    ∀ (s : SchedState) (txt : String),
      (∀ v : ℤ, pyInt txt = some v →
        (update_refresh_interval s txt).refresh_interval = v * 1000)
      ∧ (pyInt txt = none → update_refresh_interval s txt = s) := by
  intro s txt
  constructor
  · intro v hv
    unfold update_refresh_interval
    rw [hv]
    by_cases hvar : s.auto_refresh_var = true
    · simp [schedule_refresh, hvar]
    · simp only [Bool.not_eq_true] at hvar
      simp [schedule_refresh, hvar]
  · intro hnone
    unfold update_refresh_interval
    rw [hnone]

/-- C4 witness: the amended statement at the out-of-range value 1 (1000 ms). -/
theorem c4_witness :
    pyInt "1" = some 1 ∧
      (update_refresh_interval initState "1").refresh_interval = 1 * 1000 :=
  ⟨by decide, (c4_interval_set_without_clamping initState "1").1 1 (by decide)⟩

/-! ## C2: only the volume field is comma-stripped -/

theorem bind_const_none {α β : Type} (e : Option α) :
    (e.bind fun _ => (none : Option β)) = none := by
  cases e <;> rfl

theorem dropWhile_head_false {p : Char → Bool} {a : Char} {t l : List Char}
    (h : l.dropWhile p = a :: t) : p a = false := by
  induction l with
  | nil => cases h
  | cons b r ih =>
    by_cases hb : p b = true
    · rw [List.dropWhile_cons, if_pos hb] at h
      exact ih h
    · rw [List.dropWhile_cons, if_neg hb] at h
      cases h
      exact Bool.eq_false_iff.mpr hb

theorem mem_dropWhile_of_mem {p : Char → Bool} {a : Char} {l : List Char}
    (hp : p a = false) (h : a ∈ l) : a ∈ l.dropWhile p := by
  induction l with
  | nil => cases h
  | cons b t ih =>
    by_cases hb : p b = true
    · rw [List.dropWhile_cons, if_pos hb]
      rcases List.mem_cons.mp h with rfl | ht
      · rw [hb] at hp; cases hp
      · exact ih ht
    · rw [List.dropWhile_cons, if_neg hb]
      exact h

theorem mem_pyStrip {a : Char} {cs : List Char} (hp : pyIsSpace a = false)
    (h : a ∈ cs) : a ∈ pyStrip cs := by
  unfold pyStrip
  rw [List.mem_reverse]
  exact mem_dropWhile_of_mem hp (List.mem_reverse.mpr (mem_dropWhile_of_mem hp h))

theorem all_pyIsDigit_false_of_comma {l : List Char} (h : ',' ∈ l) :
    l.all pyIsDigit = false := by
  cases hall : l.all pyIsDigit
  · rfl
  · have := List.all_eq_true.mp hall ',' h
    simp [pyIsDigit] at this

theorem parseDecimal_comma {cs : List Char} (h : ',' ∈ cs) :
    parseDecimal cs = none := by
  have hsplit := List.takeWhile_append_dropWhile (fun c => c != '.') cs
  rw [← hsplit] at h
  simp only [parseDecimal]
  rcases List.mem_append.mp h with hip | hrest
  · have hall := all_pyIsDigit_false_of_comma hip
    cases hdrop : cs.dropWhile (fun c => c != '.') with
    | nil =>
      cases htake : cs.takeWhile (fun c => c != '.') with
      | nil => rw [htake] at hip; cases hip
      | cons a t =>
        rw [htake] at hall
        simp [parseDigits, hall]
    | cons r0 fp =>
      simp [hall]
  · cases hdrop : cs.dropWhile (fun c => c != '.') with
    | nil =>
      rw [hdrop] at hrest
      cases hrest
    | cons r0 fp =>
      rw [hdrop] at hrest
      have hr0 : (r0 != '.') = false :=
        @dropWhile_head_false (fun c => c != '.') r0 fp cs hdrop
      have hr0' : r0 = '.' := by
        simpa using hr0
      rcases List.mem_cons.mp hrest with hcc | hfp
      · exact absurd (hcc.trans hr0') (by decide)
      · have hfall := all_pyIsDigit_false_of_comma hfp
        simp [hfall]

theorem pyFloat_comma {s : String} (h : ',' ∈ s.data) : pyFloat s = none := by
  have hs0 : ',' ∈ pyStrip s.data := mem_pyStrip (by decide) h
  unfold pyFloat
  cases hstrip : pyStrip s.data with
  | nil => rfl
  | cons c rest =>
    rw [hstrip] at hs0
    show (if c = '-' then Option.map (fun q => -q) (parseDecimal rest)
          else if c = '+' then parseDecimal rest
          else parseDecimal (c :: rest)) = none
    split_ifs with hc hc2
    · subst hc
      rcases List.mem_cons.mp hs0 with hcc | hrest
      · exact absurd hcc (by decide)
      · simp [parseDecimal_comma hrest]
    · subst hc2
      rcases List.mem_cons.mp hs0 with hcc | hrest
      · exact absurd hcc (by decide)
      · exact parseDecimal_comma hrest
    · exact parseDecimal_comma hs0

/-- If any of the six positional parses fails, the whole record is rejected
(the `except` branch of `fetch_stock`). -/
theorem extractQuote_eq_none_of (code : String) (name : Option String)
    (latest : List String) (now : String)
    (h : latest[6]?.bind pyFloat = none
      ∨ latest[7]?.bind pyFloat = none
      ∨ latest[1]?.bind volumeField = none
      ∨ latest[3]?.bind pyFloat = none
      ∨ latest[4]?.bind pyFloat = none
      ∨ latest[5]?.bind pyFloat = none) :
    extractQuote code name latest now = none := by
  rcases h with h | h | h | h | h | h <;>
    simp only [extractQuote, h, Option.none_bind, bind_const_none]

/-- C2 counterexample: a provider row whose `open` field (position 3)
carries a grouping separator does *not* parse — the record is rejected —
even though its volume field (position 1) with the same separators parses
fine. This refutes "each numeric field has grouping separators stripped
before parsing". -/
theorem c2_counterexample_comma_in_open_fails :
    extractQuote "2330" none
        ["d", "12,345", "x", "1,234.50", "601.00", "595.00", "600.00", "+5.50"]
        "t" = none
    ∧ volumeField "12,345" = some 12345 := by
  constructor
  · decide
  · decide

/-- C2 amended: only the volume field (position 1) has grouping separators
stripped before parsing — its parse is invariant under removing commas —
while the fields parsed with `float` (open 3, high 4, low 5, close/price 6,
change 7) are parsed directly, so a grouping separator in any of them makes
the whole row fail to parse. -/
theorem c2_only_volume_comma_stripped :
    (∀ (code : String) (name : Option String) (latest : List String)
        (now : String) (i : ℕ) (s : String),
      (i = 3 ∨ i = 4 ∨ i = 5 ∨ i = 6 ∨ i = 7) → latest[i]? = some s →
      ',' ∈ s.data → extractQuote code name latest now = none)
    ∧ ∀ s1 s2 : String,
        s1.data.filter (fun c => c != ',') = s2.data.filter (fun c => c != ',') →
        volumeField s1 = volumeField s2 := by
  constructor
  · intro code name latest now i s hi hget hcomma
    have hnone : latest[i]?.bind pyFloat = none := by
      rw [hget]
      exact pyFloat_comma hcomma
    apply extractQuote_eq_none_of
    rcases hi with rfl | rfl | rfl | rfl | rfl
    · exact Or.inr (Or.inr (Or.inr (Or.inl hnone)))
    · exact Or.inr (Or.inr (Or.inr (Or.inr (Or.inl hnone))))
    · exact Or.inr (Or.inr (Or.inr (Or.inr (Or.inr hnone))))
    · exact Or.inl hnone
    · exact Or.inr (Or.inl hnone)
  · intro s1 s2 hfil
    unfold volumeField
    rw [hfil]

/-! ## C7: save/load round trip -/

theorem takeWhile_append_cons {p : Char → Bool} {l : List Char} {a : Char}
    {r : List Char} (hl : ∀ c ∈ l, p c = true) (ha : p a = false) :
    (l ++ a :: r).takeWhile p = l := by
  induction l with
  | nil => simp [List.takeWhile_cons, ha]
  | cons b t ih =>
    have hb : p b = true := hl b (by simp)
    simp only [List.cons_append, List.takeWhile_cons, hb, if_pos]
    rw [ih (fun c hc => hl c (by simp [hc]))]

theorem dropWhile_append_cons {p : Char → Bool} {l : List Char} {a : Char}
    {r : List Char} (hl : ∀ c ∈ l, p c = true) (ha : p a = false) :
    (l ++ a :: r).dropWhile p = a :: r := by
  induction l with
  | nil => simp [List.dropWhile_cons, ha]
  | cons b t ih =>
    have hb : p b = true := hl b (by simp)
    simp only [List.cons_append, List.dropWhile_cons, hb, if_pos]
    exact ih (fun c hc => hl c (by simp [hc]))

theorem jsonSkipWs_cons {c : Char} {r : List Char} (h : pyIsSpace c = false) :
    jsonSkipWs (c :: r) = c :: r := by
  simp [jsonSkipWs, List.dropWhile_cons, h]

theorem jsonSkipWs_space (r : List Char) :
    jsonSkipWs (' ' :: r) = jsonSkipWs r := by
  simp only [jsonSkipWs, List.dropWhile_cons]
  rw [if_pos (by decide : pyIsSpace ' ' = true)]

theorem parseJStr_quote {s : String} {r : List Char} (h : jsonSafe s) :
    parseJStr (jsonQuote s ++ r) = some (s, r) := by
  have hq : ∀ c ∈ s.data, (c != '"') = true := by
    intro c hc
    have h1 := h c hc
    rw [Bool.and_eq_true] at h1
    exact h1.1
  have hb : ∀ c ∈ s.data, (c != '\\') = true := by
    intro c hc
    have h1 := h c hc
    rw [Bool.and_eq_true] at h1
    exact h1.2
  have he : jsonQuote s ++ r = '"' :: (s.data ++ '"' :: r) := by
    simp [jsonQuote]
  rw [he]
  show (if ('"' : Char) = '"' then parseJStrBody (s.data ++ '"' :: r) else none)
      = some (s, r)
  rw [if_pos rfl]
  unfold parseJStrBody
  rw [takeWhile_append_cons hq (by decide), dropWhile_append_cons hq (by decide)]
  rw [if_pos (List.all_eq_true.mpr hb)]

theorem parseJTail_dumpTail :
    ∀ (t : List String) (fuel : ℕ) (r : List Char), t.length < fuel →
      (∀ s ∈ t, jsonSafe s) →
      parseJTail fuel (jsonDumpTail t ++ ']' :: r) = some (t, r) := by
  intro t
  induction t with
  | nil =>
    intro fuel r hf _
    cases fuel with
    | zero => omega
    | succ f =>
      show parseJTail (f + 1) (']' :: r) = some ([], r)
      unfold parseJTail
      rw [jsonSkipWs_cons (by decide)]
      show (if (']' : Char) = ']' then some (([] : List String), r)
            else if (']' : Char) = ',' then
              match parseJStr (jsonSkipWs r) with
              | some (s, r2) =>
                match parseJTail f r2 with
                | some (xs, r3) => some (s :: xs, r3)
                | none => none
              | none => none
            else none) = some ([], r)
      rw [if_pos rfl]
  | cons x t' ih =>
    intro fuel r hf h
    cases fuel with
    | zero => omega
    | succ f =>
      have hx : jsonSafe x := h x (by simp)
      have he : jsonDumpTail (x :: t') ++ ']' :: r =
          ',' :: ' ' :: (jsonQuote x ++ (jsonDumpTail t' ++ ']' :: r)) := by
        simp [jsonDumpTail]
      rw [he]
      unfold parseJTail
      rw [jsonSkipWs_cons (by decide)]
      show (if (',' : Char) = ']' then
              some (([] : List String), ' ' :: (jsonQuote x ++ (jsonDumpTail t' ++ ']' :: r)))
            else if (',' : Char) = ',' then
              match parseJStr
                  (jsonSkipWs (' ' :: (jsonQuote x ++ (jsonDumpTail t' ++ ']' :: r)))) with
              | some (s, r2) =>
                match parseJTail f r2 with
                | some (xs, r3) => some (s :: xs, r3)
                | none => none
              | none => none
            else none) = some (x :: t', r)
      rw [if_neg (by decide), if_pos rfl]
      rw [jsonSkipWs_space]
      rw [show jsonSkipWs (jsonQuote x ++ (jsonDumpTail t' ++ ']' :: r)) =
            jsonQuote x ++ (jsonDumpTail t' ++ ']' :: r) by
          simp only [jsonQuote, List.cons_append]
          exact jsonSkipWs_cons (by decide)]
      rw [parseJStr_quote hx]
      show (match parseJTail f (jsonDumpTail t' ++ ']' :: r) with
            | some (xs, r3) => some (x :: xs, r3)
            | none => none) = some (x :: t', r)
      rw [ih f r (by simpa using hf) (fun s hs => h s (by simp [hs]))]

/-- The JSON text of a string list, parsed back, yields the same list. -/
theorem jsonLoad_jsonDump {xs : List String} (h : ∀ s ∈ xs, jsonSafe s) :
    jsonLoadStrList (jsonDumpStrList xs) = some xs := by
  cases xs with
  | nil => decide
  | cons x t =>
    have hx : jsonSafe x := h x (by simp)
    have he : jsonDumpStrList (x :: t) =
        '[' :: (jsonQuote x ++ (jsonDumpTail t ++ [']'])) := by
      simp [jsonDumpStrList]
    rw [he]
    unfold jsonLoadStrList
    rw [jsonSkipWs_cons (by decide)]
    show (if ('[' : Char) = '[' then
            match jsonSkipWs (jsonQuote x ++ (jsonDumpTail t ++ [']'])) with
            | [] => none
            | c1 :: r2 =>
              if c1 = ']' then if (jsonSkipWs r2).isEmpty then some [] else none
              else
                match parseJStr (c1 :: r2) with
                | some (s, r3) =>
                  match parseJTail (r3.length + 1) r3 with
                  | some (xs, r4) =>
                    if (jsonSkipWs r4).isEmpty then some (s :: xs) else none
                  | none => none
                | none => none
          else none) = some (x :: t)
    rw [if_pos rfl]
    rw [show jsonSkipWs (jsonQuote x ++ (jsonDumpTail t ++ [']'])) =
          jsonQuote x ++ (jsonDumpTail t ++ [']']) by
        simp only [jsonQuote, List.cons_append]
        exact jsonSkipWs_cons (by decide)]
    have hq : jsonQuote x ++ (jsonDumpTail t ++ [']']) =
        '"' :: (x.data ++ '"' :: (jsonDumpTail t ++ [']'])) := by
      simp [jsonQuote]
    rw [hq]
    show (if ('"' : Char) = ']' then
            if (jsonSkipWs (x.data ++ '"' :: (jsonDumpTail t ++ [']']))).isEmpty
            then some [] else none
          else
            match parseJStr ('"' :: (x.data ++ '"' :: (jsonDumpTail t ++ [']']))) with
            | some (s, r3) =>
              match parseJTail (r3.length + 1) r3 with
              | some (xs, r4) =>
                if (jsonSkipWs r4).isEmpty then some (s :: xs) else none
              | none => none
            | none => none) = some (x :: t)
    rw [if_neg (by decide)]
    rw [show ('"' :: (x.data ++ '"' :: (jsonDumpTail t ++ [']']))) =
          jsonQuote x ++ (jsonDumpTail t ++ [']']) from hq.symm]
    rw [parseJStr_quote hx]
    show (match parseJTail ((jsonDumpTail t ++ [']']).length + 1)
              (jsonDumpTail t ++ [']']) with
          | some (xs, r4) =>
            if (jsonSkipWs r4).isEmpty then some (x :: xs) else none
          | none => none) = some (x :: t)
    have hfuel : t.length < (jsonDumpTail t ++ [']']).length + 1 := by
      have hd : ∀ u : List String, u.length ≤ (jsonDumpTail u).length := by
        intro u
        induction u with
        | nil => simp [jsonDumpTail]
        | cons y u' ihu => simp [jsonDumpTail, jsonQuote]; omega
      have := hd t
      simp only [List.length_append]
      omega
    rw [show jsonDumpTail t ++ [']'] = jsonDumpTail t ++ ']' :: ([] : List Char)
        from rfl]
    rw [parseJTail_dumpTail t ((jsonDumpTail t ++ ']' :: ([] : List Char)).length + 1)
        ([] : List Char) (by simpa using hfuel) (fun s hs => h s (by simp [hs]))]
    rfl

theorem jsonSafe_of_digits {s : String} (h : ∀ c ∈ s.data, pyIsDigit c = true) :
    jsonSafe s := by
  intro c hc
  have hd : '0' ≤ c ∧ c ≤ '9' := by simpa [pyIsDigit] using h c hc
  have h1 : c ≠ '"' := by
    rintro rfl
    exact absurd hd.1 (by decide)
  have h2 : c ≠ '\\' := by
    rintro rfl
    exact absurd hd.2 (by decide)
  simp [h1, h2]

/-- C7: saving the tracked list (any store whose keys are well-formed 4-digit
codes, up to 50 of them) and loading the saved text back yields the same
ordered code list — and on startup a fetch is issued per code in that order. -/
theorem c7_save_load_roundtrip :
    ∀ stocks : Dict,
      (∀ c ∈ dictKeys stocks, c.data.all pyIsDigit = true ∧ c.data.length = 4) →
      (dictKeys stocks).length ≤ 50 →
      load_stocks (some (save_stocks stocks)) = dictKeys stocks := by
  intro stocks hwf _
  unfold load_stocks save_stocks
  show (match jsonLoadStrList (jsonDumpStrList (dictKeys stocks)) with
        | some codes => codes
        | none => []) = dictKeys stocks
  rw [jsonLoad_jsonDump
    (fun s hs => jsonSafe_of_digits (List.all_eq_true.mp (hwf s hs).1))]

/-- C7 witness: round trip of the concrete store tracking `["2330", "0050"]`. -/
theorem c7_witness :
    (∀ c ∈ dictKeys stocksW, c.data.all pyIsDigit = true ∧ c.data.length = 4) ∧
      (dictKeys stocksW).length ≤ 50 ∧
      load_stocks (some (save_stocks stocksW)) = dictKeys stocksW :=
  ⟨by decide, by decide,
   c7_save_load_roundtrip stocksW (by decide) (by decide)⟩

/-- C2 witness: the amended statement applied at position 3 of a concrete
row, and to a concrete comma-decorated volume string. -/
theorem c2_witness :
    ((["a", "b", "c", "1,2"] : List String)[3]? = some "1,2") ∧
      (',' ∈ ("1,2" : String).data) ∧
      extractQuote "9999" none ["a", "b", "c", "1,2"] "t" = none ∧
      volumeField "1,000" = volumeField "1000" :=
  ⟨by decide, by decide,
   c2_only_volume_comma_stripped.1 "9999" none ["a", "b", "c", "1,2"] "t" 3 "1,2"
     (Or.inl rfl) (by decide) (by decide),
   c2_only_volume_comma_stripped.2 "1,000" "1000" (by decide)⟩

/-! ## C8: CSV export format -/

theorem digitChar_isDigit {m : ℕ} (h : m < 10) :
    pyIsDigit (Char.ofNat (48 + m)) = true := by
  interval_cases m <;> decide

theorem natDigitsRev_all_digit :
    ∀ n : ℕ, ∀ c ∈ natDigitsRev n, pyIsDigit c = true := by
  intro n
  induction n using Nat.strong_induction_on with
  | _ n ih =>
    intro c hc
    unfold natDigitsRev at hc
    by_cases h : n < 10
    · rw [if_pos h] at hc
      rcases List.mem_singleton.mp hc with rfl
      exact digitChar_isDigit h
    · rw [if_neg h] at hc
      rcases List.mem_cons.mp hc with rfl | hc'
      · exact digitChar_isDigit (Nat.mod_lt _ (by omega))
      · exact ih (n / 10) (Nat.div_lt_self (by omega) (by omega)) c hc'

theorem natStr_all_digit {n : ℕ} : ∀ c ∈ natStr n, pyIsDigit c = true :=
  fun c hc => natDigitsRev_all_digit n c (List.mem_reverse.mp hc)

theorem natDigitsRev_lt10 {n : ℕ} (h : n < 10) :
    natDigitsRev n = [Char.ofNat (48 + n)] := by
  unfold natDigitsRev
  rw [if_pos h]

theorem pad2_shape {m : ℕ} (h : m < 100) :
    ∃ a b, pad2 m = [a, b] ∧ pyIsDigit a = true ∧ pyIsDigit b = true := by
  by_cases h10 : m < 10
  · refine ⟨'0', Char.ofNat (48 + m), ?_, by decide, digitChar_isDigit h10⟩
    unfold pad2
    rw [if_pos h10]
    unfold natStr
    rw [natDigitsRev_lt10 h10]
    rfl
  · refine ⟨Char.ofNat (48 + m / 10), Char.ofNat (48 + m % 10), ?_,
      digitChar_isDigit (by omega), digitChar_isDigit (Nat.mod_lt _ (by omega))⟩
    unfold pad2
    rw [if_neg h10]
    unfold natStr
    unfold natDigitsRev
    rw [if_neg (by omega)]
    rw [natDigitsRev_lt10 (by omega)]
    rfl

theorem ne_dot_of_digit {c : Char} (h : pyIsDigit c = true) : c ≠ '.' := by
  rintro rfl
  exact absurd h (by decide)

theorem ne_comma_of_digit {c : Char} (h : pyIsDigit c = true) :
    (c != ',') = true := by
  rw [bne_iff_ne]
  rintro rfl
  exact absurd h (by decide)

/-- The `.2f` body always consists of an integer part, a dot, and exactly
two decimal digits. -/
theorem fmtFixed2_two_decimals (q : ℚ) :
    ∃ rest a b, fmtFixed2 q = rest ++ ['.', a, b] ∧ pyIsDigit a = true ∧
      pyIsDigit b = true ∧ '.' ∉ rest := by
  obtain ⟨a, b, hpad, ha, hb⟩ :=
    pad2_shape (Nat.mod_lt (roundHalfEven2 |q|) (by omega))
  refine ⟨(if q < 0 then ['-'] else []) ++ natStr (roundHalfEven2 |q| / 100),
    a, b, ?_, ha, hb, ?_⟩
  · unfold fmtFixed2
    rw [hpad]
    simp
  · intro hdot
    rcases List.mem_append.mp hdot with hsign | hdig
    · by_cases hq : q < 0
      · rw [if_pos hq] at hsign
        rcases List.mem_singleton.mp hsign
      · rw [if_neg hq] at hsign
        cases hsign
    · exact absurd rfl (ne_dot_of_digit (natStr_all_digit '.' hdig))

/-- The `+.2f` output starts with an explicit sign. -/
theorem fmtSigned2_sign (q : ℚ) :
    ∃ tail, fmtSigned2 q = (if q < 0 then '-' else '+') :: tail := by
  unfold fmtSigned2
  by_cases hq : q < 0
  · rw [if_pos hq, if_pos hq]
    exact ⟨_, rfl⟩
  · rw [if_neg hq, if_neg hq]
    exact ⟨_, rfl⟩

theorem group3_filter_aux :
    ∀ (n : ℕ) (l : List Char), l.length ≤ n →
      (group3 l).filter (fun c => c != ',') = l.filter (fun c => c != ',') := by
  intro n
  induction n with
  | zero =>
    intro l h
    have hl : l = [] := List.eq_nil_of_length_eq_zero (by omega)
    subst hl
    rfl
  | succ n ihn =>
    intro l h
    match l with
    | [] => rfl
    | [a] => rfl
    | [a, b] => rfl
    | [a, b, c] => rfl
    | a :: b :: c :: d :: rest =>
      have ih := ihn (d :: rest) (by simp at h ⊢; omega)
      show (a :: b :: c :: ',' :: group3 (d :: rest)).filter (fun c => c != ',') =
        (a :: b :: c :: d :: rest).filter (fun c => c != ',')
      simp only [List.filter_cons]
      rw [show ((',' : Char) != ',') = false by decide]
      simp only [Bool.false_eq_true, if_false, ih]
      simp only [List.filter_cons]

theorem group3_filter (l : List Char) :
    (group3 l).filter (fun c => c != ',') = l.filter (fun c => c != ',') :=
  group3_filter_aux l.length l le_rfl

/-- Removing the grouping separators from `f"{v:,}"` recovers the plain
decimal representation. -/
theorem fmtGrouped_filter (v : ℤ) :
    (fmtGrouped v).filter (fun c => c != ',') =
      (if v < 0 then ['-'] else []) ++ natStr v.natAbs := by
  unfold fmtGrouped fmtGroupedNat
  rw [List.filter_append]
  have hsign : ((if v < 0 then ['-'] else []) : List Char).filter
      (fun c => c != ',') = (if v < 0 then ['-'] else []) := by
    by_cases hv : v < 0
    · rw [if_pos hv]; rfl
    · rw [if_neg hv]; rfl
  rw [hsign]
  congr 1
  rw [List.filter_reverse, group3_filter, List.filter_reverse,
    List.reverse_reverse]
  exact List.filter_eq_self.mpr (fun c hc => ne_comma_of_digit (natStr_all_digit c hc))

/-- C8: with a non-empty store, the export text is exactly the fixed 9-column
header row followed by one `exportRow` per tracked symbol in store iteration
order; the `.2f` fields end in a dot and exactly two decimal digits, the
change field starts with an explicit sign, and the volume field is the plain
decimal with grouping separators inserted (removing them recovers it). -/
theorem c8_export_csv_format :
    ∀ stocks : Dict, stocks ≠ [] →
      export_data stocks =
          some (csvHeader ++ '\n' :: (stocks.map (fun p => exportRow p.1 p.2)).flatten)
      ∧ (∀ q : ℚ, ∃ rest a b, fmtFixed2 q = rest ++ ['.', a, b] ∧
          pyIsDigit a = true ∧ pyIsDigit b = true ∧ '.' ∉ rest)
      ∧ (∀ q : ℚ, ∃ tail, fmtSigned2 q = (if q < 0 then '-' else '+') :: tail)
      ∧ ∀ v : ℤ, (fmtGrouped v).filter (fun c => c != ',') =
          (if v < 0 then ['-'] else []) ++ natStr v.natAbs := by
  intro stocks hne
  refine ⟨?_, fmtFixed2_two_decimals, fmtSigned2_sign, fmtGrouped_filter⟩
  unfold export_data
  rw [if_neg]
  rw [List.isEmpty_iff]
  exact hne

/-- C8 witness: the export of the concrete two-symbol store. -/
theorem c8_witness :
    stocksW ≠ [] ∧
      export_data stocksW =
        some (csvHeader ++ '\n' ::
          (stocksW.map (fun p => exportRow p.1 p.2)).flatten) :=
  ⟨by decide, (c8_export_csv_format stocksW (by decide)).1⟩

/-! ## C10: startup load bypasses validation and the duplicate check -/

/-- C10: codes read back from the persisted file are fetched exactly as
stored: the non-4-digit string `"IBM"` still gets a fetch issued (while the
interactive add path would reject it for any store without fetching), a
successful provider response for it stores a record under `"IBM"`, and a
persisted duplicate is fetched twice — no validation, no duplicate check. -/
theorem c10_load_bypasses_validation :
    load_stocks (some (jsonDumpStrList ["IBM", "2330"])) = ["IBM", "2330"]
    ∧ ("IBM" : String).data.all pyIsDigit = false
    ∧ (∀ stocks : Dict, add_stock stocks "IBM" = (stocks, AddOutcome.invalidWarn, none))
    ∧ (∀ (st : Dict) (out : FetchOutcome) (now : String) (info : StockInfo),
        fetchResultInfo "IBM" out now = some info →
        dictGet ((fetch_stock st "IBM" out now).1) "IBM" = some info)
    ∧ load_stocks (some (jsonDumpStrList ["2330", "2330"])) = ["2330", "2330"] := by
  refine ⟨by decide, by decide, ?_, ?_, by decide⟩
  · intro stocks
    rfl
  · intro st out now info h
    rw [fetch_stock_of_success st h]
    exact dictGet_dictSet_self st "IBM" info

/-- C10 witness: a successful response for `"IBM"` stores a record keyed by
`"IBM"`, starting from the empty store. -/
theorem c10_witness :
    fetchResultInfo "IBM" outSuccess "t" = some infoIBM ∧
      dictGet ((fetch_stock [] "IBM" outSuccess "t").1) "IBM" = some infoIBM :=
  ⟨(Option.some_get (by decide)).symm,
   c10_load_bypasses_validation.2.2.2.1 [] outSuccess "t" infoIBM
     ((Option.some_get (by decide)).symm)⟩

end StockTracker
